import Mathlib

/-!
# Verification of the recurrence evaluator of `paran0iaa/go_final`

Shallow embedding of `internal/utils/nextdate.go` (`NextDate`, `isSameDate`),
`internal/db/db.go` (`GetUpcomingTasks`) and `internal/task/task.go` (`AddTask`),
with the fragments of Go's `time`, `strconv`, `strings` and `sort` packages they call.

Modelling conventions
* A Go `string` is a Lean `String`; the operations used only inspect ASCII characters.
* A `time.Time` is an instant (`ns`, nanoseconds since 0001-01-01T00:00:00 UTC, the Go zero
  time) together with the offset (in seconds east of UTC) of its location.  Instants are
  unbounded integers: the 64-bit range of Go's representation (hundreds of billions of
  years) is not modelled.
* `(string, error)` results are `Except`: `.error msg` is a non-nil error, `.ok s` a nil one.
* Storage failures of the SQL driver are not modelled: the table is a list of rows.
-/

namespace GoFinal

/-! ## Calendar arithmetic of package `time` -/

/-- Go `isLeap`. -/
def isLeap (year : Int) : Bool :=
  year % 4 = 0 && (year % 100 ≠ 0 || year % 400 = 0)

/-- Go table `daysBefore`: days in a non-leap year before month index `m` (0-based). -/
def daysBefore (m : Int) : Int :=
  if m = 0 then 0 else if m = 1 then 31 else if m = 2 then 59 else if m = 3 then 90
  else if m = 4 then 120 else if m = 5 then 151 else if m = 6 then 181
  else if m = 7 then 212 else if m = 8 then 243 else if m = 9 then 273
  else if m = 10 then 304 else if m = 11 then 334 else 365

/-- Go `daysIn`. -/
def daysIn (m year : Int) : Int :=
  if m = 2 ∧ isLeap year then 29 else daysBefore m - daysBefore (m - 1)

/-- Go `daysSinceEpoch`, counted from year 1 (Go counts from a year that differs from it by a
multiple of 400 to stay unsigned; with floor division the shift cancels). -/
def daysSinceEpoch (year : Int) : Int :=
  let y := year - 1
  let n400 := y / 400
  let y1 := y - 400 * n400
  let n100 := y1 / 100
  let y2 := y1 - 100 * n100
  let n4 := y2 / 4
  let y3 := y2 - 4 * n4
  146097 * n400 + 36524 * n100 + 1461 * n4 + 365 * y3

/-- The day count computed by Go `Date(year, month, day, ...)`: the month is normalised into
`[1, 12]` carrying into the year, the day is added as is (so day 30 of February overflows
into March). -/
def dateToDays (year month day : Int) : Int :=
  let m := month - 1
  let year := year + m / 12
  let m := m % 12
  let d := daysSinceEpoch year + daysBefore m
  let d := if isLeap year ∧ m + 1 ≥ 3 then d + 1 else d
  d + (day - 1)

/-- First half of Go `absDate`: the year and the 0-based day within the year. -/
def yearSplit (days : Int) : Int × Int :=
  let n400 := days / 146097
  let d1 := days - 146097 * n400
  let n100 := d1 / 36524
  let n100 := n100 - n100 / 4
  let d2 := d1 - 36524 * n100
  let n4 := d2 / 1461
  let d3 := d2 - 1461 * n4
  let n1 := d3 / 365
  let n1 := n1 - n1 / 4
  let yday := d3 - 365 * n1
  (400 * n400 + 100 * n100 + 4 * n4 + n1 + 1, yday)

/-- Second half of Go `absDate`: month and day of the month from the day within the year. -/
def monthDay (leap : Bool) (yday : Int) : Int × Int :=
  if leap ∧ yday = 31 + 29 - 1 then (2, 29)
  else
    let day := if leap ∧ yday > 31 + 29 - 1 then yday - 1 else yday
    let month := day / 31
    let e := daysBefore (month + 1)
    if day ≥ e then (month + 2, day - e + 1)
    else (month + 1, day - daysBefore month + 1)

/-- Go `absDate`: year, month and day of a day count. -/
def absDate (days : Int) : Int × Int × Int :=
  let ys := yearSplit days
  let md := monthDay (isLeap ys.1) ys.2
  (ys.1, md.1, md.2)


/-- The result of `absDate` with the two facts the loops of `NextDate` rest on: the month is in
`[1, 12]` and `dateToDays` maps the result back to the day count it came from. -/
def absDateChecked (days : Int) :
    { c : Int × Int × Int // c = absDate days ∧ 1 ≤ c.2.1 ∧ c.2.1 ≤ 12 ∧ 1 ≤ c.2.2 ∧
      c.2.2 ≤ daysIn c.2.1 c.1 ∧ dateToDays c.1 c.2.1 c.2.2 = days } :=
  ⟨absDate days, rfl, by
    -- the year: `days` lies in the year `yearSplit` returns, at offset `yday`
    have core : ∀ r a n100 c b n1 : Int, 0 ≤ r → r < 146097 → r / 36524 = a →
        a - a / 4 = n100 → (r - 36524 * n100) / 1461 = c →
        (r - 36524 * n100 - 1461 * c) / 365 = b → b - b / 4 = n1 →
        0 ≤ n100 ∧ n100 ≤ 3 ∧ 0 ≤ c ∧ c ≤ 24 ∧ 0 ≤ n1 ∧ n1 ≤ 3 ∧
        0 ≤ r - 36524 * n100 - 1461 * c - 365 * n1 ∧
        (r - 36524 * n100 - 1461 * c - 365 * n1 ≤ 364 ∨
          (r - 36524 * n100 - 1461 * c - 365 * n1 = 365 ∧ n1 = 3 ∧ (c = 24 → n100 = 3))) := by
      intro r a n100 c b n1 h1 h2 ha hn hc hb hn1
      have ha0 : 0 ≤ a ∧ a ≤ 4 := by omega
      have hn' : 0 ≤ n100 ∧ n100 ≤ 3 ∧ (a ≤ 3 → n100 = a) ∧ (a = 4 → n100 = 3) := by omega
      have hd2 : 0 ≤ r - 36524 * n100 ∧ r - 36524 * n100 ≤ 36524 ∧
          (r - 36524 * n100 = 36524 → n100 = 3) := by omega
      have hc' : 0 ≤ c ∧ c ≤ 24 ∧ 0 ≤ r - 36524 * n100 - 1461 * c ∧
          r - 36524 * n100 - 1461 * c ≤ 1460 ∧
          (r - 36524 * n100 - 1461 * c = 1460 ∧ c = 24 → n100 = 3) := by omega
      have hb' : 0 ≤ b ∧ b ≤ 4 := by omega
      have hn1' : 0 ≤ n1 ∧ n1 ≤ 3 ∧ (b ≤ 3 → n1 = b) ∧ (b = 4 → n1 = 3) := by omega
      omega
    have closed : ∀ y : Int, daysSinceEpoch y =
        365 * (y - 1) + (y - 1) / 4 - (y - 1) / 100 + (y - 1) / 400 := by
      intro y; unfold daysSinceEpoch; simp only []; omega
    have leap : ∀ y : Int, isLeap y = true ↔ (y % 4 = 0 ∧ (y % 100 ≠ 0 ∨ y % 400 = 0)) := by
      intro y; simp [isLeap]
    have year : (yearSplit days).2 = days - daysSinceEpoch (yearSplit days).1 ∧
        0 ≤ (yearSplit days).2 ∧
        (yearSplit days).2 < (if isLeap (yearSplit days).1 then 366 else 365) := by
      have h1 := Int.emod_nonneg days (by decide : (146097 : Int) ≠ 0)
      have h2 := Int.emod_lt_of_pos days (by decide : (0 : Int) < 146097)
      have h3 := Int.ediv_add_emod days 146097
      generalize hq : days / 146097 = q at *
      generalize hr : days % 146097 = r at *
      subst h3
      have e2 : 146097 * q + r - 146097 * q = r := by ring
      unfold yearSplit
      simp only [hq, e2]
      have key := core r _ _ _ _ _ h1 h2 rfl rfl rfl rfl rfl
      generalize r / 36524 - r / 36524 / 4 = n100 at *
      generalize (r - 36524 * n100) / 1461 = c at *
      generalize (r - 36524 * n100 - 1461 * c) / 365 -
        (r - 36524 * n100 - 1461 * c) / 365 / 4 = n1 at *
      rw [closed]
      simp only [leap]
      split_ifs <;> omega
    -- the month and the day: `yday` is day `md.2` of month `md.1`
    have month : ∀ (lp : Bool) (yday : Int), 0 ≤ yday → (yday < if lp then 366 else 365) →
        1 ≤ (monthDay lp yday).1 ∧ (monthDay lp yday).1 ≤ 12 ∧ 1 ≤ (monthDay lp yday).2 ∧
        (monthDay lp yday).2 ≤ (if (monthDay lp yday).1 = 2 ∧ lp then 29
          else daysBefore (monthDay lp yday).1 - daysBefore ((monthDay lp yday).1 - 1)) ∧
        daysBefore ((monthDay lp yday).1 - 1) +
          (if lp ∧ (monthDay lp yday).1 ≥ 3 then 1 else 0) + ((monthDay lp yday).2 - 1)
          = yday := by
      intro lp yday h0 h1
      obtain ⟨d0, d1, d2, d3, d4, d5, d6, d7, d8, d9, d10, d11, d12⟩ :
          daysBefore 0 = 0 ∧ daysBefore 1 = 31 ∧ daysBefore 2 = 59 ∧ daysBefore 3 = 90 ∧
          daysBefore 4 = 120 ∧ daysBefore 5 = 151 ∧ daysBefore 6 = 181 ∧ daysBefore 7 = 212 ∧
          daysBefore 8 = 243 ∧ daysBefore 9 = 273 ∧ daysBefore 10 = 304 ∧
          daysBefore 11 = 334 ∧ daysBefore 12 = 365 := by decide
      unfold monthDay
      cases lp
      · simp only [Bool.false_eq_true, false_and, if_false] at h1 ⊢
        have hm0 : 0 ≤ yday / 31 := by omega
        have hm1 : yday / 31 ≤ 11 := by omega
        generalize hm : yday / 31 = m at *
        interval_cases m <;>
          simp only [Int.reduceAdd, Int.reduceSub, d0, d1, d2, d3, d4, d5, d6, d7, d8, d9, d10,
            d11, d12] <;>
          split_ifs <;>
          simp only [Int.reduceAdd, Int.reduceSub, d0, d1, d2, d3, d4, d5, d6, d7, d8, d9, d10,
            d11, d12] <;>
          omega
      · simp only [true_and, if_true] at h1 ⊢
        by_cases h59 : yday = 31 + 29 - 1
        · simp only [h59, if_true, Int.reduceAdd, Int.reduceSub, d1, d2]; decide
        · simp only [h59, if_false]
          by_cases hgt : yday > 31 + 29 - 1
          · simp only [hgt, if_true]
            have hm0 : 0 ≤ (yday - 1) / 31 := by omega
            have hm1 : (yday - 1) / 31 ≤ 11 := by omega
            generalize hm : (yday - 1) / 31 = m at *
            interval_cases m <;>
              simp only [Int.reduceAdd, Int.reduceSub, d0, d1, d2, d3, d4, d5, d6, d7, d8, d9,
                d10, d11, d12] <;>
              split_ifs <;>
              simp only [Int.reduceAdd, Int.reduceSub, d0, d1, d2, d3, d4, d5, d6, d7, d8, d9,
                d10, d11, d12] <;>
              omega
          · simp only [hgt, if_false]
            have hm0 : 0 ≤ yday / 31 := by omega
            have hm1 : yday / 31 ≤ 1 := by omega
            generalize hm : yday / 31 = m at *
            interval_cases m <;>
              simp only [Int.reduceAdd, Int.reduceSub, d0, d1, d2, d3, d4, d5, d6, d7, d8, d9,
                d10, d11, d12] <;>
              split_ifs <;>
              simp only [Int.reduceAdd, Int.reduceSub, d0, d1, d2, d3, d4, d5, d6, d7, d8, d9,
                d10, d11, d12] <;>
              omega
    obtain ⟨hy, hy0, hy1⟩ := year
    obtain ⟨hm1, hm12, hd1, hdn, hsum⟩ := month (isLeap (yearSplit days).1) _ hy0 hy1
    unfold absDate
    simp only []
    refine ⟨hm1, hm12, hd1, ?_, ?_⟩
    · unfold daysIn; exact hdn
    · unfold dateToDays
      generalize (monthDay (isLeap (yearSplit days).1) (yearSplit days).2).1 = m at *
      have e1 : (m - 1) / 12 = 0 := by omega
      have e2 : (m - 1) % 12 = m - 1 := by omega
      have e3 : m - 1 + 1 = m := by ring
      simp only [e1, e2, e3, add_zero]
      split_ifs at hsum ⊢ <;> omega⟩


/-! ## `time.Time` -/

/-- Nanoseconds in a day. -/
def nsPerDay : Int := 86400000000000

/-- A `time.Time`: the instant and the zone offset of its location. -/
structure Time where
  /-- nanoseconds since 0001-01-01T00:00:00 UTC -/
  ns : Int
  /-- seconds east of UTC of the location the time is presented in -/
  offset : Int
deriving DecidableEq, Repr

namespace Time

/-- Wall-clock nanoseconds in the time's own location. -/
def abs (t : Time) : Int := t.ns + t.offset * 1000000000

/-- The local day count. -/
def days (t : Time) : Int := t.abs / nsPerDay

/-- The local time of day (what `Clock()` and `Nanosecond()` return), in nanoseconds. -/
def clock (t : Time) : Int := t.abs % nsPerDay

/-- Go `t.Year()`. -/
def Year (t : Time) : Int := (absDate t.days).1

/-- Go `t.Month()`. -/
def Month (t : Time) : Int := (absDate t.days).2.1

/-- Go `t.Day()`. -/
def Day (t : Time) : Int := (absDate t.days).2.2

/-- Go `t.After(u)`. -/
def After (t u : Time) : Bool := decide (u.ns < t.ns)

/-- Go `t.Before(u)`. -/
def Before (t u : Time) : Bool := decide (t.ns < u.ns)

/-- Go `t.Equal(u)`: the same instant, whatever the locations. -/
def Equal (t u : Time) : Bool := decide (t.ns = u.ns)

end Time

/-- Go `time.Date(year, month, day, hour, min, sec, nsec, loc)`, the time of day given as one
count `clock` of nanoseconds and the location as its offset. -/
def Date (year month day clock offset : Int) : Time :=
  ⟨dateToDays year month day * nsPerDay + clock - offset * 1000000000, offset⟩

/-- Go `t.AddDate(years, months, days)`. -/
def Time.AddDate (t : Time) (years months days : Int) : Time :=
  Date (t.Year + years) (t.Month + months) (t.Day + days) t.clock t.offset

/-- The zero `time.Time{}`, which `time.Parse` returns along with an error. -/
def zeroTime : Time := ⟨0, 0⟩

/-! ## Formatting and parsing with the layout `"20060102"` -/

/-- The decimal digit character of `n < 10`. -/
def digitChar (n : Nat) : Char := Char.ofNat (48 + n)

/-- Go `appendInt`: `x` in decimal, zero-padded to `width`, after a minus sign if negative. -/
def appendInt (x : Int) (width : Nat) : List Char :=
  let sign : List Char := if x < 0 then ['-'] else []
  let u := x.natAbs
  if width = 2 ∧ u < 100 then sign ++ [digitChar (u / 10), digitChar (u % 10)]
  else if width = 4 ∧ u < 10000 then
    sign ++ [digitChar (u / 1000), digitChar (u / 100 % 10), digitChar (u / 10 % 10),
      digitChar (u % 10)]
  else
    let ds := Nat.toDigits 10 u
    sign ++ List.replicate (width - ds.length) '0' ++ ds

/-- Go `t.Format("20060102")`: year on four digits (more beyond 9999), month, day. -/
def Time.Format (t : Time) : String :=
  ⟨appendInt t.Year 4 ++ appendInt t.Month 2 ++ appendInt t.Day 2⟩

/-- Go `isDigit`. -/
def isDigit (c : Char) : Bool := decide ('0' ≤ c) && decide (c ≤ '9')

/-- The value of a decimal digit. -/
def digitVal (c : Char) : Int := (c.toNat : Int) - 48

/-- Go `getnum(s, true)`: exactly two digits. -/
def getnum : List Char → Option (Int × List Char)
  | c0 :: c1 :: rest =>
    if isDigit c0 && isDigit c1 then some (digitVal c0 * 10 + digitVal c1, rest) else none
  | _ => none

/-- Go `time.Parse("20060102", value)`: four digits of year, two of month, two of day and
nothing more, the month in `[1, 12]` and the day in the month; midnight UTC of that day.
`none` stands for a parse error. -/
def Parse (value : String) : Option Time :=
  match value.data with
  | y0 :: y1 :: y2 :: y3 :: rest =>
    if isDigit y0 && isDigit y1 && isDigit y2 && isDigit y3 then
      let year := digitVal y0 * 1000 + digitVal y1 * 100 + digitVal y2 * 10 + digitVal y3
      match getnum rest with
      | none => none
      | some (month, rest) =>
        match getnum rest with
        | none => none
        | some (day, rest) =>
          if !rest.isEmpty then none
          else if month ≤ 0 ∨ 12 < month then none
          else if day < 1 ∨ day > daysIn month year then none
          else some (Date year month day 0 0)
    else none
  | _ => none

/-! ## `strconv` and `strings` -/

/-- Go `strconv.Atoi` on a 64-bit platform: an optional sign and one or more decimal digits,
in the range of `int`.  `none` stands for an error. -/
def Atoi (s : String) : Option Int :=
  let cs := s.data
  let signed := cs.head? = some '-' ∨ cs.head? = some '+'
  let ds := if signed then cs.tail else cs
  if ds.isEmpty then none
  else if ds.all isDigit then
    let n : Int := ds.foldl (fun acc c => acc * 10 + digitVal c) 0
    let v := if cs.head? = some '-' then -n else n
    if v < -9223372036854775808 ∨ 9223372036854775807 < v then none else some v
  else none

/-- Go `strings.HasPrefix`. -/
def HasPrefix (s pre : String) : Bool := pre.data.isPrefixOf s.data

/-- Go `strings.TrimPrefix`. -/
def TrimPrefix (s pre : String) : String :=
  if HasPrefix s pre then ⟨s.data.drop pre.data.length⟩ else s

/-- Go `unicode.IsSpace`. -/
def isSpace (c : Char) : Bool :=
  let n := c.toNat
  (9 ≤ n && n ≤ 13) || n = 32 || n = 0x85 || n = 0xA0 || n = 0x1680 ||
  (0x2000 ≤ n && n ≤ 0x200a) || n = 0x2028 || n = 0x2029 || n = 0x202f || n = 0x205f ||
  n = 0x3000

/-- Go `strings.TrimSpace`. -/
def TrimSpace (s : String) : String :=
  ⟨((s.data.dropWhile isSpace).reverse.dropWhile isSpace).reverse⟩

deriving instance DecidableEq for Except

/-! ## `internal/utils/nextdate.go` -/

/-- Source `isSameDate`: same year, month and day, each time read in its own location. -/
def isSameDate (a b : Time) : Bool :=
  a.Year = b.Year && a.Month = b.Month && a.Day = b.Day

/-- The loop `for !nextDate.After(now) { nextDate = nextDate.AddDate(0, 0, days) }` of the
daily rule.  It is entered with `1 ≤ days` only, which is what makes it terminate. -/
def dailyLoop (now : Time) (days : Int) (hd : 1 ≤ days) (nextDate : Time) : Time :=
  if h : nextDate.After now then nextDate
  else dailyLoop now days hd (nextDate.AddDate 0 0 days)
termination_by (now.ns + 1 - nextDate.ns).toNat
decreasing_by
  obtain ⟨_, rfl, _, _, _, _, hback⟩ := absDateChecked nextDate.days
  have hsplit := Int.ediv_add_emod nextDate.abs nsPerDay
  have hlin : ∀ y m d k : Int, dateToDays y m (d + k) = dateToDays y m d + k := by
    intro y m d k; unfold dateToDays; simp only []; split_ifs <;> ring
  have hns : (nextDate.AddDate 0 0 days).ns = nextDate.ns + days * nsPerDay := by
    simp only [Time.AddDate, Date, Time.Year, Time.Month, Time.Day, Time.clock, add_zero]
    rw [hlin, hback]
    simp only [Time.days, Time.abs] at hsplit ⊢
    linarith
  have hle : nextDate.ns ≤ now.ns := by simpa [Time.After] using h
  rw [hns]
  simp only [nsPerDay]
  omega

/-- The loop `for !nextDate.After(now) { nextDate = nextDate.AddDate(1, 0, 0) }` of the
yearly rule. -/
def yearLoop (now : Time) (nextDate : Time) : Time :=
  if h : nextDate.After now then nextDate
  else yearLoop now (nextDate.AddDate 1 0 0)
termination_by (now.ns + 1 - nextDate.ns).toNat
decreasing_by
  obtain ⟨_, rfl, hm1, hm12, _, _, hback⟩ := absDateChecked nextDate.days
  have hsplit := Int.ediv_add_emod nextDate.abs nsPerDay
  have hyear : ∀ y m d : Int, 1 ≤ m → m ≤ 12 →
      dateToDays y m d + 365 ≤ dateToDays (y + 1) m d := by
    intro y m d h1 h12
    have e1 : (m - 1) / 12 = 0 := by omega
    unfold dateToDays daysSinceEpoch
    simp only [e1, add_zero, isLeap, Bool.and_eq_true, Bool.or_eq_true, decide_eq_true_eq,
      bne_iff_ne, ne_eq]
    split_ifs <;> omega
  have hns : nextDate.ns + 365 * nsPerDay ≤ (nextDate.AddDate 1 0 0).ns := by
    simp only [Time.AddDate, Date, Time.Year, Time.Month, Time.Day, Time.clock, add_zero]
    have hstep := hyear (absDate nextDate.days).1 _ (absDate nextDate.days).2.2 hm1 hm12
    rw [hback] at hstep
    simp only [Time.days, Time.abs] at hsplit hstep ⊢
    have hK : (0 : Int) ≤ nsPerDay := by decide
    nlinarith [mul_le_mul_of_nonneg_right hstep hK]
  have hle : nextDate.ns ≤ now.ns := by simpa [Time.After] using h
  simp only [nsPerDay] at hns
  omega

/-- Source `NextDate`.  `repeatRule` is the parameter `repeat`. -/
def NextDate (now : Time) (date repeatRule status : String) : Except String String :=
  if date = "" then .ok ""
  else
    match Parse date with
    | none => .ok ""
    | some startDate =>
      if repeatRule = "" then
        if startDate.After now then .ok startDate.Format else .ok ""
      else if HasPrefix repeatRule "d " then
        match Atoi (TrimPrefix repeatRule "d ") with
        | none => .ok ""
        | some days =>
          if h : days < 1 ∨ days > 400 then .ok ""
          else if status ≠ "done" ∧ isSameDate startDate now then .ok startDate.Format
          else
            .ok (dailyLoop now days (by omega) (startDate.AddDate 0 0 days)).Format
      else if repeatRule = "y" then
        let nextDate := startDate.AddDate 1 0 0
        let nextDate :=
          if startDate.Month = 2 ∧ startDate.Day = 29 then
            if nextDate.Month ≠ 2 ∨ nextDate.Day ≠ 29 then Date nextDate.Year 3 1 0 nextDate.offset
            else nextDate
          else nextDate
        let nextDate := if nextDate.Before now then yearLoop now nextDate else nextDate
        .ok nextDate.Format
      else .error "неподдерживаемый формат повтора"

/-! ## `internal/db/db.go` -/

/-- Source `db.Task`. -/
structure Task where
  ID : Int
  Date : String
  Title : String
  Comment : String
  Repeat : String
deriving DecidableEq, Repr

/-- The two errors `GetUpcomingTasks` builds itself, with the id of the row they name. -/
inductive ListError where
  /-- Message "Ошибка при разборе даты задачи ID %d": the stored date of the row does not parse -/
  | parseDate (id : Int)
  /-- Message "Ошибка при вычислении следующей даты для задачи ID %d": `NextDate` failed, with its
  message -/
  | nextDate (id : Int) (err : String)
deriving DecidableEq, Repr

/-- The `for rows.Next()` loop of `GetUpcomingTasks` over the rows of the table: a row due on
or before `now` gets the date `NextDate` computes in context `"list"`, the first error ends the
listing. -/
def scanRows (now : Time) : List Task → Except ListError (List Task)
  | [] => .ok []
  | task :: rows =>
    match Parse task.Date with
    | none => .error (.parseDate task.ID)
    | some taskDate =>
      if taskDate.Before now ∨ taskDate.Equal now then
        match NextDate now task.Date task.Repeat "list" with
        | .error err => .error (.nextDate task.ID err)
        | .ok nextDateStr =>
          match scanRows now rows with
          | .error e => .error e
          | .ok tasks => .ok ({ task with Date := nextDateStr } :: tasks)
      else
        match scanRows now rows with
        | .error e => .error e
        | .ok tasks => .ok (task :: tasks)

/-- Go `<` on strings: the first differing position decides, a proper start of a string is
less than the string.  Go compares bytes; on UTF-8 text that is the order of the characters'
code points compared here. -/
def stringLess : List Char → List Char → Bool
  | [], [] => false
  | [], _ :: _ => true
  | _ :: _, [] => false
  | a :: as, b :: bs =>
    if a.toNat < b.toNat then true
    else if b.toNat < a.toNat then false
    else stringLess as bs

/-- The comparison `tasks[i].Date < tasks[j].Date` handed to `sort.Slice`. -/
def dateLess (a b : Task) : Bool := stringLess a.Date.data b.Date.data

/-- What `sort.Slice` promises of its result, for the comparison `dateLess`: the same elements,
none less than one before it.  The order of elements neither of which is less than the other
is left open, as the sort is not stable. -/
def SortsByDate (sortSlice : List Task → List Task) : Prop :=
  ∀ l, (sortSlice l).Perm l ∧ (sortSlice l).Pairwise (fun a b => dateLess b a = false)

/-- Source `GetUpcomingTasks`, over the rows `rows` of table `scheduler` (in the order the
query yields them) at the time `now`, with `sort.Slice` as the parameter `sortSlice`. -/
def GetUpcomingTasks (sortSlice : List Task → List Task) (rows : List Task) (now : Time) :
    Except ListError (List Task) :=
  match scanRows now rows with
  | .error e => .error e
  | .ok tasks =>
    let tasks := sortSlice tasks
    let tasks := if tasks.length > 50 then tasks.take 50 else tasks
    .ok tasks

/-! ## `internal/task/task.go` -/

/-- Source `AddTaskRequest`, the decoded body of the request. -/
structure AddTaskRequest where
  Date : String
  Title : String
  Comment : String
  Repeat : String
deriving DecidableEq, Repr

/-- Source handler `AddTask` from the decoded request on, at the time `now`: the HTTP status
and message of an error answer, or the task it hands to `db.AddTask` (whose own outcome, the
new id or a storage error, is not modelled). -/
def AddTask (now : Time) (req : AddTaskRequest) : Except (Nat × String) Task :=
  let title := TrimSpace req.Title
  if title = "" then .error (400, "не указан заголовок задачи")
  else
    let date := if TrimSpace req.Date = "" then now.Format else req.Date
    match Parse date with
    | none => .error (400, "дата указана в неверном формате")
    | some taskDate =>
      if taskDate.Before now then
        if TrimSpace req.Repeat = "" then
          .ok { ID := 0, Date := now.Format, Title := title, Comment := req.Comment,
                Repeat := req.Repeat }
        else
          match NextDate now date req.Repeat "add" with
          | .error _ => .error (400, "неверное правило повторения")
          | .ok nextDateStr =>
            -- `taskDate, _ = time.Parse(layout, nextDateStr)`: the error is dropped
            let taskDate := (Parse nextDateStr).getD zeroTime
            .ok { ID := 0, Date := taskDate.Format, Title := title, Comment := req.Comment,
                  Repeat := req.Repeat }
      else
        .ok { ID := 0, Date := taskDate.Format, Title := title, Comment := req.Comment,
              Repeat := req.Repeat }

/-! ## Calendar lemmas -/

theorem daysSinceEpoch_closed (y : Int) : daysSinceEpoch y =
    365 * (y - 1) + (y - 1) / 4 - (y - 1) / 100 + (y - 1) / 400 := by
  unfold daysSinceEpoch; simp only []; omega

theorem isLeap_iff (y : Int) :
    isLeap y = true ↔ (y % 4 = 0 ∧ (y % 100 ≠ 0 ∨ y % 400 = 0)) := by
  simp [isLeap]

theorem daysSinceEpoch_succ (y : Int) :
    daysSinceEpoch (y + 1) = daysSinceEpoch y + (if isLeap y then 366 else 365) := by
  rw [daysSinceEpoch_closed, daysSinceEpoch_closed]
  split_ifs with h <;> rw [isLeap_iff] at h <;> omega

theorem daysSinceEpoch_mono {y z : Int} (h : y ≤ z) : daysSinceEpoch y ≤ daysSinceEpoch z := by
  rw [daysSinceEpoch_closed, daysSinceEpoch_closed]
  omega

/-- Function `dateToDays` undoes `absDate`. -/
theorem dateToDays_absDate (n : Int) :
    dateToDays (absDate n).1 (absDate n).2.1 (absDate n).2.2 = n := by
  obtain ⟨_, rfl, _, _, _, _, h⟩ := absDateChecked n
  exact h

theorem absDate_valid (n : Int) :
    1 ≤ (absDate n).2.1 ∧ (absDate n).2.1 ≤ 12 ∧ 1 ≤ (absDate n).2.2 ∧
    (absDate n).2.2 ≤ daysIn (absDate n).2.1 (absDate n).1 := by
  obtain ⟨_, rfl, h1, h2, h3, h4, _⟩ := absDateChecked n
  exact ⟨h1, h2, h3, h4⟩

/-- The position in its year of a valid month and day. -/
theorem dateToDays_in_year {y m d : Int} (hm1 : 1 ≤ m) (hm12 : m ≤ 12) (hd1 : 1 ≤ d)
    (hdn : d ≤ daysIn m y) :
    daysSinceEpoch y ≤ dateToDays y m d ∧ dateToDays y m d < daysSinceEpoch (y + 1) := by
  rw [daysSinceEpoch_succ]
  unfold dateToDays
  unfold daysIn at hdn
  have e1 : (m - 1) / 12 = 0 := by omega
  have e2 : (m - 1) % 12 = m - 1 := by omega
  have e3 : m - 1 + 1 = m := by ring
  simp only [e1, e2, e3, add_zero]
  cases isLeap y <;> simp only [Bool.false_eq_true, false_and, true_and, and_true, if_false,
    if_true] at hdn ⊢ <;> unfold daysBefore at hdn ⊢ <;> omega

/-- The 0-based position in the year of day `d` of month `m`. -/
theorem yearDay_bounds (lp : Bool) {m d : Int} (hm1 : 1 ≤ m) (hm12 : m ≤ 12)
    (hdn : d ≤ if m = 2 ∧ lp = true then 29 else daysBefore m - daysBefore (m - 1)) :
    daysBefore (m - 1) + (if lp = true ∧ m ≥ 3 then 1 else 0) + (d - 1)
      < daysBefore m + (if lp = true ∧ m ≥ 2 then 1 else 0) := by
  cases lp <;> simp only [Bool.false_eq_true, false_and, and_false, true_and, and_true,
    if_false] at hdn ⊢ <;> unfold daysBefore at hdn ⊢ <;> omega

theorem yearDay_mono (lp : Bool) {j k : Int} (hj : 1 ≤ j) (hjk : j < k) (hk : k ≤ 12) :
    daysBefore j + (if lp = true ∧ j ≥ 2 then 1 else 0)
      ≤ daysBefore (k - 1) + (if lp = true ∧ k ≥ 3 then 1 else 0) := by
  cases lp <;> simp only [Bool.false_eq_true, false_and, true_and, if_false] <;>
    unfold daysBefore <;> omega

/-- Two valid dates with the same day count are the same date. -/
theorem dateToDays_inj {y m d y' m' d' : Int}
    (hm1 : 1 ≤ m) (hm12 : m ≤ 12) (hd1 : 1 ≤ d) (hdn : d ≤ daysIn m y)
    (hm1' : 1 ≤ m') (hm12' : m' ≤ 12) (hd1' : 1 ≤ d') (hdn' : d' ≤ daysIn m' y')
    (h : dateToDays y m d = dateToDays y' m' d') : y = y' ∧ m = m' ∧ d = d' := by
  have ha := dateToDays_in_year hm1 hm12 hd1 hdn
  have hb := dateToDays_in_year hm1' hm12' hd1' hdn'
  have hy : y = y' := by
    by_contra hne
    rcases lt_or_gt_of_ne hne with hlt | hgt
    · have := daysSinceEpoch_mono (show y + 1 ≤ y' by omega); omega
    · have := daysSinceEpoch_mono (show y' + 1 ≤ y by omega); omega
  subst hy
  refine ⟨rfl, ?_⟩
  unfold dateToDays at h
  unfold daysIn at hdn hdn'
  have e1 : (m - 1) / 12 = 0 := by omega
  have e2 : (m - 1) % 12 = m - 1 := by omega
  have e3 : m - 1 + 1 = m := by ring
  have e1' : (m' - 1) / 12 = 0 := by omega
  have e2' : (m' - 1) % 12 = m' - 1 := by omega
  have e3' : m' - 1 + 1 = m' := by ring
  simp only [e1, e2, e3, e1', e2', e3', add_zero] at h
  have p := yearDay_bounds (isLeap y) hm1 hm12 hdn
  have p' := yearDay_bounds (isLeap y) hm1' hm12' hdn'
  have hm : m = m' := by
    by_contra hne
    rcases lt_or_gt_of_ne hne with hlt | hgt
    · have := yearDay_mono (isLeap y) hm1 hlt hm12'
      split_ifs at h p p' this <;> omega
    · have := yearDay_mono (isLeap y) hm1' hgt hm12
      split_ifs at h p p' this <;> omega
  subst hm
  refine ⟨rfl, ?_⟩
  split_ifs at h <;> omega

/-- Function `absDate` undoes `dateToDays` on a valid date. -/
theorem absDate_dateToDays {y m d : Int} (hm1 : 1 ≤ m) (hm12 : m ≤ 12) (hd1 : 1 ≤ d)
    (hdn : d ≤ daysIn m y) : absDate (dateToDays y m d) = (y, m, d) := by
  obtain ⟨h1, h2, h3, h4⟩ := absDate_valid (dateToDays y m d)
  obtain ⟨e1, e2, e3⟩ := dateToDays_inj h1 h2 h3 h4 hm1 hm12 hd1 hdn (dateToDays_absDate _)
  exact Prod.ext e1 (Prod.ext e2 e3)

/-! ## Digits -/

theorem isDigit_iff (c : Char) : isDigit c = true ↔ 48 ≤ c.toNat ∧ c.toNat ≤ 57 := by
  simp only [isDigit, Bool.and_eq_true, decide_eq_true_eq]
  exact Iff.rfl

theorem digitChar_digitVal {c : Char} (h : isDigit c = true) :
    ∃ n : Nat, n < 10 ∧ digitVal c = (n : Int) ∧ digitChar n = c := by
  rw [isDigit_iff] at h
  refine ⟨c.toNat - 48, by omega, ?_, ?_⟩
  · unfold digitVal; omega
  · unfold digitChar
    rw [show 48 + (c.toNat - 48) = c.toNat by omega]
    exact Char.ofNat_toNat c

theorem appendInt_two {a b : Nat} (ha : a < 10) (hb : b < 10) :
    appendInt ((a : Int) * 10 + b) 2 = [digitChar a, digitChar b] := by
  have hu : ((a : Int) * 10 + b).natAbs = a * 10 + b := by omega
  have h0 : ¬ ((a : Int) * 10 + b < 0) := by omega
  unfold appendInt
  simp only [hu, h0, if_false, List.nil_append]
  rw [if_pos ⟨trivial, by omega⟩]
  congr 2
  · omega
  · congr 1; omega

theorem appendInt_four {a b c d : Nat} (ha : a < 10) (hb : b < 10) (hc : c < 10) (hd : d < 10) :
    appendInt ((a : Int) * 1000 + b * 100 + c * 10 + d) 4
      = [digitChar a, digitChar b, digitChar c, digitChar d] := by
  have hu : ((a : Int) * 1000 + b * 100 + c * 10 + d).natAbs = a * 1000 + b * 100 + c * 10 + d := by
    omega
  have h0 : ¬ ((a : Int) * 1000 + b * 100 + c * 10 + d < 0) := by omega
  unfold appendInt
  simp only [hu, h0, if_false, List.nil_append]
  rw [if_neg (by omega), if_pos ⟨trivial, by omega⟩]
  have e1 : (a * 1000 + b * 100 + c * 10 + d) / 1000 = a := by omega
  have e2 : (a * 1000 + b * 100 + c * 10 + d) / 100 % 10 = b := by omega
  have e3 : (a * 1000 + b * 100 + c * 10 + d) / 10 % 10 = c := by omega
  have e4 : (a * 1000 + b * 100 + c * 10 + d) % 10 = d := by omega
  rw [e1, e2, e3, e4]

/-! ## Parsed dates -/

theorem getnum_eq_some {cs rest : List Char} {v : Int} (h : getnum cs = some (v, rest)) :
    ∃ a b : Nat, a < 10 ∧ b < 10 ∧ v = (a : Int) * 10 + b ∧
      cs = digitChar a :: digitChar b :: rest := by
  rcases cs with _ | ⟨c0, _ | ⟨c1, tl⟩⟩
  · simp [getnum] at h
  · simp [getnum] at h
  · simp only [getnum, Bool.and_eq_true] at h
    split_ifs at h with hd
    obtain ⟨a, ha, hva, hca⟩ := digitChar_digitVal hd.1
    obtain ⟨b, hb, hvb, hcb⟩ := digitChar_digitVal hd.2
    simp only [Option.some.injEq, Prod.mk.injEq] at h
    refine ⟨a, b, ha, hb, ?_, ?_⟩
    · rw [← h.1, hva, hvb]
    · rw [hca, hcb, h.2]

/-- What a successful `Parse` says of its argument and its result. -/
theorem Parse_eq_some {s : String} {t : Time} (h : Parse s = some t) :
    ∃ y m d : Int, 0 ≤ y ∧ y ≤ 9999 ∧ 1 ≤ m ∧ m ≤ 12 ∧ 1 ≤ d ∧ d ≤ daysIn m y ∧
      t = Date y m d 0 0 ∧ s = ⟨appendInt y 4 ++ appendInt m 2 ++ appendInt d 2⟩ := by
  rcases s with ⟨cs⟩
  rcases cs with _ | ⟨y0, _ | ⟨y1, _ | ⟨y2, _ | ⟨y3, rest⟩⟩⟩⟩
  · simp [Parse] at h
  · simp [Parse] at h
  · simp [Parse] at h
  · simp [Parse] at h
  · simp only [Parse, Bool.and_eq_true] at h
    split_ifs at h with hd
    obtain ⟨⟨⟨h0, h1⟩, h2⟩, h3⟩ := hd
    obtain ⟨a0, ha0, hv0, hc0⟩ := digitChar_digitVal h0
    obtain ⟨a1, ha1, hv1, hc1⟩ := digitChar_digitVal h1
    obtain ⟨a2, ha2, hv2, hc2⟩ := digitChar_digitVal h2
    obtain ⟨a3, ha3, hv3, hc3⟩ := digitChar_digitVal h3
    cases hg1 : getnum rest with
    | none => simp [hg1] at h
    | some p1 =>
      obtain ⟨month, rest1⟩ := p1
      simp only [hg1] at h
      cases hg2 : getnum rest1 with
      | none => simp [hg2] at h
      | some p2 =>
        obtain ⟨day, rest2⟩ := p2
        simp only [hg2] at h
        split_ifs at h with hr hmr hdr
        simp only [Option.some.injEq] at h
        obtain ⟨b0, b1, hb0, hb1, hmv, hrest⟩ := getnum_eq_some hg1
        obtain ⟨c0, c1, hc0', hc1', hdv, hrest1⟩ := getnum_eq_some hg2
        have hr2 : rest2 = [] := by simpa using hr
        refine ⟨_, month, day, ?_, ?_, by omega, by omega, by omega, by omega, h.symm, ?_⟩
        · rw [hv0, hv1, hv2, hv3]; omega
        · rw [hv0, hv1, hv2, hv3]; omega
        · rw [hv0, hv1, hv2, hv3, hmv, hdv, appendInt_four ha0 ha1 ha2 ha3,
            appendInt_two hb0 hb1, appendInt_two hc0' hc1', hrest, hrest1, hr2, hc0, hc1, hc2, hc3]
          rfl

/-! ## Times -/

theorem nsPerDay_pos : (0 : Int) < nsPerDay := by decide

/-- Midnight UTC of a valid date: its day count, clock and date. -/
theorem Date_midnight {y m d : Int} (hm1 : 1 ≤ m) (hm12 : m ≤ 12) (hd1 : 1 ≤ d)
    (hdn : d ≤ daysIn m y) :
    (Date y m d 0 0).days = dateToDays y m d ∧ (Date y m d 0 0).clock = 0 ∧
    (Date y m d 0 0).Year = y ∧ (Date y m d 0 0).Month = m ∧ (Date y m d 0 0).Day = d := by
  have hdays : (Date y m d 0 0).days = dateToDays y m d := by
    simp only [Time.days, Time.abs, Date, add_zero, zero_mul, sub_zero]
    exact Int.mul_ediv_cancel _ nsPerDay_pos.ne'
  refine ⟨hdays, ?_, ?_, ?_, ?_⟩
  · simp only [Time.clock, Time.abs, Date, add_zero, zero_mul, sub_zero]
    exact Int.mul_emod_left _ _
  · simp only [Time.Year, hdays, absDate_dateToDays hm1 hm12 hd1 hdn]
  · simp only [Time.Month, hdays, absDate_dateToDays hm1 hm12 hd1 hdn]
  · simp only [Time.Day, hdays, absDate_dateToDays hm1 hm12 hd1 hdn]

/-- Formatting a parsed date gives the text back. -/
theorem Format_Parse {s : String} {t : Time} (h : Parse s = some t) : t.Format = s := by
  obtain ⟨y, m, d, _, _, hm1, hm12, hd1, hdn, rfl, rfl⟩ := Parse_eq_some h
  obtain ⟨_, _, hY, hM, hD⟩ := Date_midnight hm1 hm12 hd1 hdn
  simp only [Time.Format, hY, hM, hD]

theorem Parse_offset {s : String} {t : Time} (h : Parse s = some t) : t.offset = 0 := by
  obtain ⟨y, m, d, _, _, _, _, _, _, rfl, _⟩ := Parse_eq_some h
  rfl

theorem Parse_ne_empty {s : String} {t : Time} (h : Parse s = some t) : s ≠ "" := by
  rintro rfl
  simp [Parse] at h

/-- Adding `k` days with `AddDate(0, 0, k)` moves the instant by `k` days. -/
theorem AddDate_days (t : Time) (k : Int) :
    t.AddDate 0 0 k = ⟨t.ns + k * nsPerDay, t.offset⟩ := by
  have hsplit := Int.ediv_add_emod t.abs nsPerDay
  have hlin : ∀ y m d k : Int, dateToDays y m (d + k) = dateToDays y m d + k := by
    intro y m d k; unfold dateToDays; simp only []; split_ifs <;> ring
  simp only [Time.AddDate, Date, Time.Year, Time.Month, Time.Day, Time.clock, add_zero]
  rw [hlin, dateToDays_absDate]
  simp only [Time.days, Time.abs] at hsplit ⊢
  congr 1
  linarith

/-! ## The daily rule -/

/-- The daily loop stops at the first step of `days` days that is after `now`. -/
theorem dailyLoop_spec (now : Time) (days : Int) (hd : 1 ≤ days) (t : Time) :
    ∃ j : Nat, dailyLoop now days hd t = ⟨t.ns + j * days * nsPerDay, t.offset⟩ ∧
      now.ns < t.ns + j * days * nsPerDay ∧
      ∀ i : Nat, i < j → t.ns + i * days * nsPerDay ≤ now.ns := by
  induction t using dailyLoop.induct now days hd with
  | case1 t h =>
    refine ⟨0, ?_, ?_, ?_⟩
    · rw [dailyLoop, dif_pos h]; simp
    · simpa [Time.After] using h
    · intro i hi; omega
  | case2 t h ih =>
    obtain ⟨j, hj, hafter, hmin⟩ := ih
    rw [AddDate_days] at hj hafter hmin
    simp only at hj hafter hmin
    refine ⟨j + 1, ?_, ?_, ?_⟩
    · rw [dailyLoop, dif_neg h, AddDate_days, hj]
      congr 1
      push_cast; ring
    · push_cast; linarith
    · intro i hi
      rcases Nat.eq_zero_or_pos i with rfl | hpos
      · simpa [Time.After] using h
      · have := hmin (i - 1) (by omega)
        have hc : ((i - 1 : Nat) : Int) = (i : Int) - 1 := by omega
        rw [hc] at this
        linarith

theorem data_append_d (s : String) : ("d " ++ s).data = 'd' :: ' ' :: s.data := by
  rw [String.data_append]; rfl

theorem daily_rule_ne_empty (s : String) : "d " ++ s ≠ "" := by
  intro h
  have := congrArg String.data h
  rw [data_append_d] at this
  simp at this

theorem HasPrefix_daily (s : String) : HasPrefix ("d " ++ s) "d " = true := by
  simp [HasPrefix, data_append_d, List.isPrefixOf]

theorem TrimPrefix_daily (s : String) : TrimPrefix ("d " ++ s) "d " = s := by
  simp [TrimPrefix, HasPrefix_daily, data_append_d]

/-- The daily rule past the same-day return: the least positive multiple of `n` days from the
stored date that is after `now`. -/
theorem NextDate_daily_advance (now : Time) (date s status : String) (startDate : Time)
    (n : Int) (hp : Parse date = some startDate) (hN : Atoi s = some n) (h1 : 1 ≤ n)
    (h400 : n ≤ 400) (hsame : status = "done" ∨ isSameDate startDate now = false) :
    ∃ k : Int, 1 ≤ k ∧
      NextDate now date ("d " ++ s) status = .ok (startDate.AddDate 0 0 (k * n)).Format ∧
      (startDate.AddDate 0 0 (k * n)).After now = true ∧
      ∀ j : Int, 1 ≤ j → j < k → (startDate.AddDate 0 0 (j * n)).After now = false := by
  have hrange : ¬ (n < 1 ∨ n > 400) := by omega
  have hguard : ¬ (status ≠ "done" ∧ isSameDate startDate now = true) := by
    rcases hsame with h | h
    · simp [h]
    · simp [h]
  obtain ⟨j, hj, hafter, hmin⟩ := dailyLoop_spec now n h1 (startDate.AddDate 0 0 n)
  rw [AddDate_days] at hj hafter hmin
  simp only at hj hafter hmin
  refine ⟨j + 1, by omega, ?_, ?_, ?_⟩
  · unfold NextDate
    rw [if_neg (Parse_ne_empty hp)]
    simp only [hp, if_neg (daily_rule_ne_empty s), HasPrefix_daily, TrimPrefix_daily, hN,
      if_true, dif_neg hrange, if_neg hguard]
    rw [AddDate_days, hj, AddDate_days]
    congr 3
    ring
  · rw [AddDate_days]
    simp only [Time.After, decide_eq_true_eq]
    linarith
  · intro i hi1 hik
    rw [AddDate_days]
    simp only [Time.After, decide_eq_false_iff_not, not_lt]
    have := hmin (i - 1).toNat (by omega)
    have hc : (((i - 1).toNat : Nat) : Int) = i - 1 := by omega
    rw [hc] at this
    linarith

set_option maxRecDepth 100000 in
theorem Atoi_decimal_fin :
    ∀ n : Fin 401, 1 ≤ n.val → Atoi (toString n.val) = some (n.val : Int) := by
  decide

/-- Reading back the decimal text of a number in `[1, 400]`. -/
theorem Atoi_decimal (N : Nat) (h1 : 1 ≤ N) (h400 : N ≤ 400) :
    Atoi (toString N) = some (N : Int) :=
  Atoi_decimal_fin ⟨N, by omega⟩ h1

/-! ## The yearly rule -/

/-- The yearly loop ends after `now` and keeps whatever `AddDate(1, 0, 0)` keeps. -/
theorem yearLoop_spec (now : Time) (P : Time → Prop) (hstep : ∀ t, P t → P (t.AddDate 1 0 0))
    (t : Time) (h : P t) : P (yearLoop now t) ∧ (yearLoop now t).After now = true := by
  induction t using yearLoop.induct now with
  | case1 t hafter =>
    rw [yearLoop, dif_pos hafter]
    exact ⟨h, hafter⟩
  | case2 t hafter ih =>
    rw [yearLoop, dif_neg hafter]
    exact ih (hstep t h)

theorem daysIn_march (y : Int) : daysIn 3 y = 31 := by
  simp [daysIn, daysBefore]

/-- A year after a March 1 is the next March 1. -/
theorem AddDate_year_march (z : Int) :
    (Date z 3 1 0 0).AddDate 1 0 0 = Date (z + 1) 3 1 0 0 := by
  obtain ⟨_, hc, hY, hM, hD⟩ :=
    Date_midnight (y := z) (m := 3) (d := 1) (by decide) (by decide) (by decide)
      (by rw [daysIn_march]; decide)
  simp only [Time.AddDate, hY, hM, hD, hc, add_zero]
  rfl

/-- A year after February 29 is March 1 of the next year, which is not a leap year. -/
theorem AddDate_year_leap_day {y : Int} (hd : 29 ≤ daysIn 2 y) :
    (Date y 2 29 0 0).AddDate 1 0 0 = Date (y + 1) 3 1 0 0 := by
  have hleap : isLeap y = true := by
    by_contra hne
    simp only [daysIn, hne, and_false, if_false] at hd
    revert hd; decide
  have hnext : isLeap (y + 1) = false := by
    rw [isLeap_iff] at hleap
    have : ¬ (isLeap (y + 1) = true) := by rw [isLeap_iff]; omega
    simpa using this
  obtain ⟨_, hc, hY, hM, hD⟩ :=
    Date_midnight (y := y) (m := 2) (d := 29) (by decide) (by decide) (by decide)
      (by simp [daysIn, hleap])
  simp only [Time.AddDate, hY, hM, hD, hc, add_zero]
  unfold Date
  congr 1
  have : dateToDays (y + 1) 2 29 = dateToDays (y + 1) 3 1 := by
    simp [dateToDays, hnext, daysBefore]
    omega
  rw [this]

/-- The yearly rule on a February 29: the result is a March 1. -/
theorem NextDate_yearly_leap_day (now : Time) (date status : String) (startDate : Time)
    (hp : Parse date = some startDate) (hm : startDate.Month = 2) (hd : startDate.Day = 29) :
    ∃ z : Int, NextDate now date "y" status = .ok (Date z 3 1 0 0).Format := by
  obtain ⟨y, m, d, _, _, hm1, hm12, hd1, hdn, rfl, _⟩ := Parse_eq_some hp
  obtain ⟨_, _, hY, hM, hD⟩ := Date_midnight hm1 hm12 hd1 hdn
  rw [hM] at hm
  rw [hD] at hd
  subst hm hd
  have hadd := AddDate_year_leap_day hdn
  obtain ⟨_, _, hY', hM', hD'⟩ :=
    Date_midnight (y := y + 1) (m := 3) (d := 1) (by decide) (by decide) (by decide)
      (by rw [daysIn_march]; decide)
  have hne : ¬ ("y" : String) = "" := by decide
  have hpre : HasPrefix "y" "d " = false := by decide
  unfold NextDate
  rw [if_neg (Parse_ne_empty hp)]
  simp only [hp, hne, hpre, if_false, if_true, Bool.false_eq_true, hM, hD, and_self, hadd, hM',
    hD', hY', ne_eq]
  have hoff : (Date (y + 1) 3 1 0 0).offset = 0 := rfl
  rw [hoff]
  simp only [show ((3 : Int) = 2) = False by decide, not_false_eq_true, true_or, if_true]
  by_cases hb : (Date (y + 1) 3 1 0 0).Before now = true
  · rw [if_pos hb]
    obtain ⟨⟨z, hz⟩, _⟩ := yearLoop_spec now (fun t => ∃ z : Int, t = Date z 3 1 0 0)
      (by rintro t ⟨z, rfl⟩; exact ⟨z + 1, AddDate_year_march z⟩) (Date (y + 1) 3 1 0 0) ⟨_, rfl⟩
    exact ⟨z, by rw [hz]⟩
  · rw [if_neg hb]
    exact ⟨y + 1, rfl⟩

/-- The yearly rule never returns a date before `now`; it returns `now` itself when the first
candidate is exactly `now`, and a date after `now` otherwise. -/
theorem NextDate_yearly_not_before (now : Time) (date status : String) (startDate : Time)
    (hp : Parse date = some startDate) :
    ∃ t : Time, NextDate now date "y" status = .ok t.Format ∧
      (t.After now = true ∨ t.ns = now.ns) := by
  have hne : ¬ ("y" : String) = "" := by decide
  have hpre : HasPrefix "y" "d " = false := by decide
  unfold NextDate
  rw [if_neg (Parse_ne_empty hp)]
  simp only [hp, hne, hpre, if_false, if_true, Bool.false_eq_true]
  generalize (if startDate.Month = 2 ∧ startDate.Day = 29 then
      if (startDate.AddDate 1 0 0).Month ≠ 2 ∨ (startDate.AddDate 1 0 0).Day ≠ 29 then
        Date (startDate.AddDate 1 0 0).Year 3 1 0 (startDate.AddDate 1 0 0).offset
      else startDate.AddDate 1 0 0
    else startDate.AddDate 1 0 0) = nextDate
  by_cases hb : nextDate.Before now = true
  · rw [if_pos hb]
    exact ⟨_, rfl, Or.inl (yearLoop_spec now (fun _ => True) (fun _ _ => trivial) _ trivial).2⟩
  · rw [if_neg hb]
    refine ⟨_, rfl, ?_⟩
    simp only [Time.Before, decide_eq_true_eq, not_lt] at hb
    simp only [Time.After, decide_eq_true_eq]
    omega

/-! ## The listing -/

/-- A due row whose rule `NextDate` rejects makes the scan of the table fail. -/
theorem scanRows_error_of_mem (now : Time) (task : Task) (d : Time) (msg : String)
    (hp : Parse task.Date = some d) (hdue : d.Before now = true ∨ d.Equal now = true)
    (herr : NextDate now task.Date task.Repeat "list" = .error msg) :
    ∀ rows : List Task, task ∈ rows → ∃ e, scanRows now rows = .error e := by
  intro rows
  induction rows with
  | nil => intro h; simp at h
  | cons r rest ih =>
    intro hmem
    unfold scanRows
    cases hpr : Parse r.Date with
    | none => exact ⟨_, rfl⟩
    | some rd =>
      simp only []
      by_cases hrd : rd.Before now = true ∨ rd.Equal now = true
      · rw [if_pos hrd]
        cases hnd : NextDate now r.Date r.Repeat "list" with
        | error e => exact ⟨_, rfl⟩
        | ok s =>
          simp only []
          rcases List.mem_cons.mp hmem with heq | hin
          · subst heq
            rw [herr] at hnd
            cases hnd
          · obtain ⟨e, he⟩ := ih hin
            rw [he]
            exact ⟨_, rfl⟩
      · rw [if_neg hrd]
        rcases List.mem_cons.mp hmem with heq | hin
        · subst heq
          rw [hp] at hpr
          cases hpr
          exact absurd hdue hrd
        · obtain ⟨e, he⟩ := ih hin
          rw [he]
          exact ⟨_, rfl⟩

theorem stringLess_asymm : ∀ a b : List Char, stringLess a b = true → stringLess b a = false
  | [], [], h => by simp [stringLess] at h
  | [], _ :: _, _ => by simp [stringLess]
  | _ :: _, [], h => by simp [stringLess] at h
  | a :: as, b :: bs, h => by
    simp only [stringLess] at h ⊢
    split_ifs at h ⊢
    · omega
    · rfl
    · exact stringLess_asymm as bs h

/-- Not being less, read backwards, is transitive. -/
theorem stringLess_not_trans : ∀ a b c : List Char,
    stringLess b a = false → stringLess c b = false → stringLess c a = false
  | [], _, [], _, _ => by simp [stringLess]
  | [], _, _ :: _, _, _ => by simp [stringLess]
  | _ :: _, [], _, h, _ => by simp [stringLess] at h
  | _ :: _, _ :: _, [], _, h => by simp [stringLess] at h
  | a :: as, b :: bs, c :: cs, h1, h2 => by
    simp only [stringLess] at h1 h2 ⊢
    split_ifs at h1 h2 ⊢ <;> first
      | omega
      | rfl
      | exact stringLess_not_trans as bs cs h1 h2

/-- Insertion sort on the comparison of `GetUpcomingTasks` keeps the promise of `sort.Slice`. -/
theorem insertionSort_SortsByDate :
    SortsByDate (List.insertionSort (fun a b => dateLess b a = false)) := by
  intro l
  haveI : IsTotal Task (fun a b => dateLess b a = false) :=
    ⟨fun a b => by
      unfold dateLess
      cases h : stringLess a.Date.data b.Date.data
      · exact Or.inr rfl
      · exact Or.inl (stringLess_asymm _ _ h)⟩
  haveI : IsTrans Task (fun a b => dateLess b a = false) :=
    ⟨fun a b c hab hbc => stringLess_not_trans _ _ _ hab hbc⟩
  exact ⟨List.perm_insertionSort _ l, List.sorted_insertionSort _ l⟩

/-! ## The claims -/

/-- C1, as amended: for a valid stored date `D` (`date`, parsed as `startDate`), `N` in
`[1, 400]` and a reference time `now` such that `D` is not after `now` and is not the same
calendar day as `now`, `NextDate(now, D, "d N", "add")` returns `D + k*N` days for some
`k ≥ 1`, that date is strictly after `now`, and no `D + j*N` with `1 ≤ j < k` is. -/
theorem C1_daily_add (now : Time) (date : String) (startDate : Time) (N : Nat)
    (hp : Parse date = some startDate) (h1 : 1 ≤ N) (h400 : N ≤ 400)
    (_hnotafter : startDate.After now = false) (hsame : isSameDate startDate now = false) :
    ∃ k : Int, 1 ≤ k ∧
      NextDate now date ("d " ++ toString N) "add"
        = .ok (startDate.AddDate 0 0 (k * N)).Format ∧
      (startDate.AddDate 0 0 (k * N)).After now = true ∧
      ∀ j : Int, 1 ≤ j → j < k → (startDate.AddDate 0 0 (j * N)).After now = false :=
  NextDate_daily_advance now date (toString N) "add" startDate N hp (Atoi_decimal N h1 h400)
    (by omega) (by omega) (Or.inr hsame)

/-- C1, witness: stored date 2023-01-01, every 7 days, reference 2023-01-15. -/
theorem C1_daily_add_witness :
    Parse "20230101" = some (Date 2023 1 1 0 0) ∧ 1 ≤ 7 ∧ 7 ≤ 400 ∧
    (Date 2023 1 1 0 0).After (Date 2023 1 15 0 0) = false ∧
    isSameDate (Date 2023 1 1 0 0) (Date 2023 1 15 0 0) = false ∧
    ∃ k : Int, 1 ≤ k ∧
      NextDate (Date 2023 1 15 0 0) "20230101" ("d " ++ toString 7) "add"
        = .ok ((Date 2023 1 1 0 0).AddDate 0 0 (k * (7 : Nat))).Format ∧
      ((Date 2023 1 1 0 0).AddDate 0 0 (k * (7 : Nat))).After (Date 2023 1 15 0 0) = true ∧
      ∀ j : Int, 1 ≤ j → j < k →
        ((Date 2023 1 1 0 0).AddDate 0 0 (j * (7 : Nat))).After (Date 2023 1 15 0 0) = false :=
  ⟨by decide, by decide, by decide, by decide, by decide,
    C1_daily_add (Date 2023 1 15 0 0) "20230101" (Date 2023 1 1 0 0) 7 (by decide)
      (by decide) (by decide) (by decide) (by decide)⟩

/-- C1, counterexample: with the stored date 2023-01-01 equal to the reference date (so not
after it) and `N = 7`, `NextDate(..., "add")` returns the stored date itself, which is not
strictly after the reference date (the same-day return of the daily rule). -/
theorem C1_counterexample :
    Parse "20230101" = some (Date 2023 1 1 0 0) ∧
    (Date 2023 1 1 0 0).After (Date 2023 1 1 0 0) = false ∧
    NextDate (Date 2023 1 1 0 0) "20230101" ("d " ++ toString 7) "add" = .ok "20230101" := by
  decide

/-- C2: for a valid stored date `D`, `N` in `[1, 400]` and any reference time `now`,
`NextDate(now, D, "d N", "done")` returns `D + k*N` days for the least `k ≥ 1` such that
`D + k*N` is strictly after `now`; in particular the result is after `now`, not `D` itself,
when `D` is today. -/
theorem C2_daily_done (now : Time) (date : String) (startDate : Time) (N : Nat)
    (hp : Parse date = some startDate) (h1 : 1 ≤ N) (h400 : N ≤ 400) :
    ∃ k : Int, 1 ≤ k ∧
      NextDate now date ("d " ++ toString N) "done"
        = .ok (startDate.AddDate 0 0 (k * N)).Format ∧
      (startDate.AddDate 0 0 (k * N)).After now = true ∧
      ∀ j : Int, 1 ≤ j → j < k → (startDate.AddDate 0 0 (j * N)).After now = false :=
  NextDate_daily_advance now date (toString N) "done" startDate N hp (Atoi_decimal N h1 h400)
    (by omega) (by omega) (Or.inl rfl)

/-- C2, witness: stored date and reference date both 2024-01-26, every 5 days. -/
theorem C2_daily_done_witness :
    Parse "20240126" = some (Date 2024 1 26 0 0) ∧ 1 ≤ 5 ∧ 5 ≤ 400 ∧
    ∃ k : Int, 1 ≤ k ∧
      NextDate (Date 2024 1 26 0 0) "20240126" ("d " ++ toString 5) "done"
        = .ok ((Date 2024 1 26 0 0).AddDate 0 0 (k * (5 : Nat))).Format ∧
      ((Date 2024 1 26 0 0).AddDate 0 0 (k * (5 : Nat))).After (Date 2024 1 26 0 0) = true ∧
      ∀ j : Int, 1 ≤ j → j < k →
        ((Date 2024 1 26 0 0).AddDate 0 0 (j * (5 : Nat))).After (Date 2024 1 26 0 0) = false :=
  ⟨by decide, by decide, by decide,
    C2_daily_done (Date 2024 1 26 0 0) "20240126" (Date 2024 1 26 0 0) 5 (by decide)
      (by decide) (by decide)⟩

/-- C3, the code at the failing input: stored date 2023-01-01, rule `"y"`, reference time
2024-01-01T00:00:00Z.  The result is 2024-01-01, the reference date, not a date after it. -/
theorem C3_yearly_returns_reference :
    NextDate (Date 2024 1 1 0 0) "20230101" "y" "nextdate" = .ok "20240101" ∧
    Parse "20240101" = some (Date 2024 1 1 0 0) ∧
    (Date 2024 1 1 0 0).After (Date 2024 1 1 0 0) = false := by
  decide

/-- C4: for a stored date that is a February 29, any reference time and any context, the date
`NextDate` returns with rule `"y"` is the March 1 of its year; so it is March 1 in a
non-leap year, and never February 28. -/
theorem C4_leap_day_yearly (now : Time) (date status : String) (startDate : Time)
    (hp : Parse date = some startDate) (hm : startDate.Month = 2) (hd : startDate.Day = 29) :
    ∃ t : Time, NextDate now date "y" status = .ok t.Format ∧
      (isLeap t.Year = false → t.Month = 3 ∧ t.Day = 1) ∧ ¬ (t.Month = 2 ∧ t.Day = 28) := by
  obtain ⟨z, hz⟩ := NextDate_yearly_leap_day now date status startDate hp hm hd
  obtain ⟨_, _, _, hM, hD⟩ :=
    Date_midnight (y := z) (m := 3) (d := 1) (by decide) (by decide) (by decide)
      (by rw [daysIn_march]; decide)
  refine ⟨Date z 3 1 0 0, hz, fun _ => ⟨hM, hD⟩, ?_⟩
  rw [hM]
  rintro ⟨h, _⟩
  exact absurd h (by decide)

/-- C4, witness: stored date 2024-02-29, reference 2025-03-01, context `"done"`. -/
theorem C4_leap_day_yearly_witness :
    Parse "20240229" = some (Date 2024 2 29 0 0) ∧ (Date 2024 2 29 0 0).Month = 2 ∧
    (Date 2024 2 29 0 0).Day = 29 ∧
    ∃ t : Time, NextDate (Date 2025 3 1 0 0) "20240229" "y" "done" = .ok t.Format ∧
      (isLeap t.Year = false → t.Month = 3 ∧ t.Day = 1) ∧ ¬ (t.Month = 2 ∧ t.Day = 28) :=
  ⟨by decide, by decide, by decide,
    C4_leap_day_yearly (Date 2025 3 1 0 0) "20240229" "done" (Date 2024 2 29 0 0) (by decide)
      (by decide) (by decide)⟩

/-- What `NextDate` does with a rule it does not support. -/
theorem NextDate_unsupported (now : Time) (date rule status : String) (startDate : Time)
    (hp : Parse date = some startDate) (hne : rule ≠ "") (hy : rule ≠ "y")
    (hd : HasPrefix rule "d " = false) :
    NextDate now date rule status = .error "неподдерживаемый формат повтора" := by
  unfold NextDate
  rw [if_neg (Parse_ne_empty hp)]
  simp only [hp, hne, hy, hd, if_false, Bool.false_eq_true]

/-- C5, as amended: for a row whose valid stored date is due on or before the reference time
and whose rule is unsupported (not empty, not `"y"`, not starting with `"d "`), `NextDate` in
context `"list"` returns the unsupported-rule error, and `GetUpcomingTasks` on a table holding
that row returns an error: the listing fails, whatever `sort.Slice` does. -/
theorem C5_list_unsupported_rule (sortSlice : List Task → List Task) (now : Time)
    (rows : List Task) (task : Task) (d : Time) (hmem : task ∈ rows)
    (hp : Parse task.Date = some d) (hdue : d.Before now = true ∨ d.Equal now = true)
    (hne : task.Repeat ≠ "") (hy : task.Repeat ≠ "y")
    (hd : HasPrefix task.Repeat "d " = false) :
    NextDate now task.Date task.Repeat "list" = .error "неподдерживаемый формат повтора" ∧
    ∃ e, GetUpcomingTasks sortSlice rows now = .error e := by
  have herr := NextDate_unsupported now task.Date task.Repeat "list" d hp hne hy hd
  refine ⟨herr, ?_⟩
  obtain ⟨e, he⟩ := scanRows_error_of_mem now task d _ hp hdue herr rows hmem
  exact ⟨e, by simp only [GetUpcomingTasks, he]⟩

/-- C5, witness: a table of two rows, the second due on 2024-01-01 with rule `"w 2"`, listed
on 2024-01-26. -/
theorem C5_list_unsupported_rule_witness :
    (⟨2, "20240101", "a", "", "w 2"⟩ : Task) ∈
      [(⟨1, "20240301", "b", "", ""⟩ : Task), ⟨2, "20240101", "a", "", "w 2"⟩] ∧
    Parse "20240101" = some (Date 2024 1 1 0 0) ∧
    ((Date 2024 1 1 0 0).Before (Date 2024 1 26 0 0) = true ∨
      (Date 2024 1 1 0 0).Equal (Date 2024 1 26 0 0) = true) ∧
    ("w 2" : String) ≠ "" ∧ ("w 2" : String) ≠ "y" ∧ HasPrefix "w 2" "d " = false ∧
    (NextDate (Date 2024 1 26 0 0) "20240101" "w 2" "list"
        = .error "неподдерживаемый формат повтора" ∧
      ∃ e, GetUpcomingTasks (List.insertionSort (fun a b => dateLess b a = false))
        [⟨1, "20240301", "b", "", ""⟩, ⟨2, "20240101", "a", "", "w 2"⟩] (Date 2024 1 26 0 0)
        = .error e) :=
  ⟨by decide, by decide, by decide, by decide, by decide, by decide,
    C5_list_unsupported_rule (List.insertionSort (fun a b => dateLess b a = false))
      (Date 2024 1 26 0 0) [⟨1, "20240301", "b", "", ""⟩, ⟨2, "20240101", "a", "", "w 2"⟩]
      ⟨2, "20240101", "a", "", "w 2"⟩ (Date 2024 1 1 0 0) (by decide) (by decide) (by decide)
      (by decide) (by decide) (by decide)⟩

/-- C5, counterexample: on 2024-01-26 a row due on 2024-01-01 with the rule `"w 2"` gets an
error from `NextDate` in context `"list"`, not an empty result, and `GetUpcomingTasks` returns
that error for the row instead of a list. -/
theorem C5_counterexample :
    Parse "20240101" = some (Date 2024 1 1 0 0) ∧
    (Date 2024 1 1 0 0).Before (Date 2024 1 26 0 0) = true ∧
    NextDate (Date 2024 1 26 0 0) "20240101" "w 2" "list"
      = .error "неподдерживаемый формат повтора" ∧
    GetUpcomingTasks (List.insertionSort (fun a b => dateLess b a = false))
      [⟨2, "20240101", "a", "", "w 2"⟩] (Date 2024 1 26 0 0)
      = .error (.nextDate 2 "неподдерживаемый формат повтора") := by
  decide

/-- C6, as amended: for a valid stored date, any reference time and any context, `NextDate`
called with a non-empty rule that is not `"y"` and does not start with `"d "` returns the
unsupported-rule error, and no date. -/
theorem C6_unsupported_rule (now : Time) (date rule status : String) (startDate : Time)
    (hp : Parse date = some startDate) (hne : rule ≠ "") (hy : rule ≠ "y")
    (hd : HasPrefix rule "d " = false) :
    NextDate now date rule status = .error "неподдерживаемый формат повтора" :=
  NextDate_unsupported now date rule status startDate hp hne hy hd

/-- C6, witness: the rule `"w 2"` in context `"check"`. -/
theorem C6_unsupported_rule_witness :
    Parse "20240101" = some (Date 2024 1 1 0 0) ∧ ("w 2" : String) ≠ "" ∧
    ("w 2" : String) ≠ "y" ∧ HasPrefix "w 2" "d " = false ∧
    NextDate (Date 2024 1 26 0 0) "20240101" "w 2" "check"
      = .error "неподдерживаемый формат повтора" :=
  ⟨by decide, by decide, by decide, by decide,
    C6_unsupported_rule (Date 2024 1 26 0 0) "20240101" "w 2" "check" (Date 2024 1 1 0 0)
      (by decide) (by decide) (by decide) (by decide)⟩

/-- C6, counterexample: the rule `"d x"` is not empty, is not `"y"` and is not `"d N"` for any
number `N` (`Atoi` rejects `"x"`), yet `NextDate` returns the empty string and no error. -/
theorem C6_counterexample :
    Parse "20240101" = some (Date 2024 1 1 0 0) ∧ ("d x" : String) ≠ "" ∧
    ("d x" : String) ≠ "y" ∧ TrimPrefix "d x" "d " = "x" ∧ Atoi "x" = none ∧
    NextDate (Date 2024 1 26 0 0) "20240101" "d x" "add" = .ok "" := by
  decide

/-- C7: for a valid stored date, any reference time and any context, `NextDate` with the empty
rule returns the stored date unchanged when it is strictly after the reference time and the
empty string otherwise, never an error; so it returns the stored date exactly when that date
is strictly after the reference time. -/
theorem C7_empty_rule (now : Time) (date status : String) (startDate : Time)
    (hp : Parse date = some startDate) :
    (startDate.After now = true → NextDate now date "" status = .ok date) ∧
    (startDate.After now = false → NextDate now date "" status = .ok "") ∧
    (NextDate now date "" status = .ok date ↔ startDate.After now = true) := by
  have hne := Parse_ne_empty hp
  have hfmt := Format_Parse hp
  have hval : NextDate now date "" status
      = if startDate.After now = true then .ok date else .ok "" := by
    unfold NextDate
    rw [if_neg hne]
    simp only [hp, if_true, hfmt]
  refine ⟨fun h => by rw [hval, if_pos h], fun h => by rw [hval, if_neg (by simp [h])], ?_⟩
  rw [hval]
  constructor
  · intro hc
    by_contra hA
    rw [if_neg hA] at hc
    injection hc with hc
    exact hne hc.symm
  · intro hA
    rw [if_pos hA]

/-- C7, witness: stored date 2024-02-01, reference 2024-01-26. -/
theorem C7_empty_rule_witness :
    Parse "20240201" = some (Date 2024 2 1 0 0) ∧
    (((Date 2024 2 1 0 0).After (Date 2024 1 26 0 0) = true →
        NextDate (Date 2024 1 26 0 0) "20240201" "" "list" = .ok "20240201") ∧
      ((Date 2024 2 1 0 0).After (Date 2024 1 26 0 0) = false →
        NextDate (Date 2024 1 26 0 0) "20240201" "" "list" = .ok "") ∧
      (NextDate (Date 2024 1 26 0 0) "20240201" "" "list" = .ok "20240201" ↔
        (Date 2024 2 1 0 0).After (Date 2024 1 26 0 0) = true)) :=
  ⟨by decide, C7_empty_rule (Date 2024 1 26 0 0) "20240201" "list" (Date 2024 2 1 0 0)
    (by decide)⟩

/-- The same-day return of the daily rule, for any text `s` of the interval that `Atoi` reads
as a number in `[1, 400]`. -/
theorem NextDate_daily_same_day (date s status : String) (T : Time) (n : Int)
    (hp : Parse date = some T) (hN : Atoi s = some n) (h1 : 1 ≤ n) (h400 : n ≤ 400)
    (hs : status ≠ "done") : NextDate T date ("d " ++ s) status = .ok date := by
  have hrange : ¬ (n < 1 ∨ n > 400) := by omega
  have hsame : isSameDate T T = true := by simp [isSameDate]
  unfold NextDate
  rw [if_neg (Parse_ne_empty hp)]
  simp only [hp, if_neg (daily_rule_ne_empty s), HasPrefix_daily, TrimPrefix_daily, hN,
    if_true, dif_neg hrange, hsame, hs, ne_eq, not_false_eq_true, and_self, Format_Parse hp]

/-- C8: for a valid date `T` used as the stored date and as the reference time (midnight UTC
of `T`), `N` in `[1, 400]` and a context other than `"done"`, `NextDate(T, T, "d N", context)`
returns `T` unchanged, with no error. -/
theorem C8_same_day (date status : String) (T : Time) (N : Nat)
    (hp : Parse date = some T) (h1 : 1 ≤ N) (h400 : N ≤ 400) (hs : status ≠ "done") :
    NextDate T date ("d " ++ toString N) status = .ok date :=
  NextDate_daily_same_day date (toString N) status T N hp (Atoi_decimal N h1 h400) (by omega)
    (by omega) hs

/-- C8, witness: date 2024-01-26, every 7 days, context `"list"`. -/
theorem C8_same_day_witness :
    Parse "20240126" = some (Date 2024 1 26 0 0) ∧ 1 ≤ 7 ∧ 7 ≤ 400 ∧
    ("list" : String) ≠ "done" ∧
    NextDate (Date 2024 1 26 0 0) "20240126" ("d " ++ toString 7) "list" = .ok "20240126" :=
  ⟨by decide, by decide, by decide, by decide,
    C8_same_day "20240126" "list" (Date 2024 1 26 0 0) 7 (by decide) (by decide)
      (by decide) (by decide)⟩

/-- C9: when `GetUpcomingTasks` returns a list, the list has at most 50 entries, is in
ascending order of the effective dates (no entry has a date less than that of an entry before
it), and is the first 50 entries of the whole set of effective tasks in the order
`sort.Slice` gives it, which is a rearrangement of that set in ascending order of date. -/
theorem C9_listing_sorted_capped (sortSlice : List Task → List Task)
    (hsort : SortsByDate sortSlice) (rows : List Task) (now : Time) (ts : List Task)
    (h : GetUpcomingTasks sortSlice rows now = .ok ts) :
    ts.length ≤ 50 ∧ ts.Pairwise (fun a b => dateLess b a = false) ∧
    ∃ effective sorted : List Task, scanRows now rows = .ok effective ∧
      sorted.Perm effective ∧ sorted.Pairwise (fun a b => dateLess b a = false) ∧
      ts = sorted.take 50 := by
  unfold GetUpcomingTasks at h
  cases hscan : scanRows now rows with
  | error e => rw [hscan] at h; cases h
  | ok effective =>
    rw [hscan] at h
    simp only [Except.ok.injEq] at h
    obtain ⟨hperm, hpair⟩ := hsort effective
    have hts : ts = (sortSlice effective).take 50 := by
      rw [← h]
      split_ifs with hlen
      · rfl
      · exact (List.take_of_length_le (by omega)).symm
    refine ⟨?_, ?_, effective, sortSlice effective, rfl, hperm, hpair, hts⟩
    · rw [hts, List.length_take]; omega
    · rw [hts]; exact hpair.sublist (List.take_sublist _ _)

/-- C9, witness: three rows listed on 2024-01-26, sorted by insertion sort. -/
theorem C9_listing_sorted_capped_witness :
    SortsByDate (List.insertionSort (fun a b => dateLess b a = false)) ∧
    GetUpcomingTasks (List.insertionSort (fun a b => dateLess b a = false))
      [⟨1, "20240301", "b", "", ""⟩, ⟨2, "20240101", "a", "", ""⟩,
        ⟨3, "20240201", "c", "", "d 3"⟩] (Date 2024 1 26 0 0)
      = .ok [⟨2, "", "a", "", ""⟩, ⟨3, "20240201", "c", "", "d 3"⟩,
        ⟨1, "20240301", "b", "", ""⟩] ∧
    (([⟨2, "", "a", "", ""⟩, ⟨3, "20240201", "c", "", "d 3"⟩,
        ⟨1, "20240301", "b", "", ""⟩] : List Task).length ≤ 50 ∧
      ([⟨2, "", "a", "", ""⟩, ⟨3, "20240201", "c", "", "d 3"⟩,
        ⟨1, "20240301", "b", "", ""⟩] : List Task).Pairwise (fun a b => dateLess b a = false) ∧
      ∃ effective sorted : List Task,
        scanRows (Date 2024 1 26 0 0) [⟨1, "20240301", "b", "", ""⟩,
          ⟨2, "20240101", "a", "", ""⟩, ⟨3, "20240201", "c", "", "d 3"⟩] = .ok effective ∧
        sorted.Perm effective ∧ sorted.Pairwise (fun a b => dateLess b a = false) ∧
        ([⟨2, "", "a", "", ""⟩, ⟨3, "20240201", "c", "", "d 3"⟩,
          ⟨1, "20240301", "b", "", ""⟩] : List Task) = sorted.take 50) :=
  ⟨insertionSort_SortsByDate, by decide,
    C9_listing_sorted_capped (List.insertionSort (fun a b => dateLess b a = false))
      insertionSort_SortsByDate _ (Date 2024 1 26 0 0) _ (by decide)⟩

/-- C10, the code at the failing input: on 2024-01-26 a request with the past date 2020-01-01,
title `"x"` and repeat `"d 500"` is accepted and the date handed to the store is
`"00010101"`, the zero time, long before the current date. -/
theorem C10_AddTask_stores_zero_date :
    AddTask (Date 2024 1 26 0 0) ⟨"20200101", "x", "", "d 500"⟩
      = .ok ⟨0, "00010101", "x", "", "d 500"⟩ ∧
    Parse "00010101" = some zeroTime ∧ zeroTime.Before (Date 2024 1 26 0 0) = true := by
  decide

end GoFinal
